import Mathlib

/-!
Verification of the visual object-search pipeline of the EvidenX-AI
backend (`app/services/visual_search_service.py` and
`app/api/ai_service.py`), shallowly embedded in Lean 4.

Frames are abstract values carrying their pixel dimensions; the
zero-shot detector together with its HuggingFace post-processing is an
injected function from a frame to either an error or a list of raw
detections, matching the spec's treatment of the model as an external
capability.  Python floats are modelled as exact rationals; Python's
`int()` truncation, floor-`%`, and `round(x, 2)` (banker's rounding)
are modelled explicitly.
-/

namespace EvidenX

/-- Errors a pipeline run can raise, mirroring the Python exceptions that
can escape `VisualSearch`: `IOError` from `open_video`,
`ZeroDivisionError` from `frame_idx % frames_per_minute` when
`int(fps * 60) == 0`, and an arbitrary exception from the detector
invocation (`self.model(**inputs)` / post-processing). -/
inductive PyErr where
  | ioError : PyErr
  | zeroDivision : PyErr
  | detectionFailed : PyErr
deriving DecidableEq, Repr

/-- Python `int()` on a (non-NaN) float: truncation toward zero. -/
def pyInt (q : ℚ) : ℤ := if 0 ≤ q then ⌊q⌋ else ⌈q⌉

/-- Python `%` on integers: floored modulus (the result takes the sign of
the divisor). Defined only for a nonzero divisor; the callers below
check for zero first, as CPython raises `ZeroDivisionError` there. -/
def pyMod (a b : ℤ) : ℤ := Int.fmod a b

/-- Round half to even at integer precision, the rounding CPython's
`round` uses. -/
def roundHalfEven (q : ℚ) : ℤ :=
  if q - ⌊q⌋ < 1/2 then ⌊q⌋
  else if 1/2 < q - ⌊q⌋ then ⌊q⌋ + 1
  else if 2 ∣ ⌊q⌋ then ⌊q⌋ else ⌊q⌋ + 1

/-- Python `round(x, 2)` as used on box coordinates before printing. -/
def pyRound2 (q : ℚ) : ℚ := (roundHalfEven (q * 100) : ℚ) / 100

/-- `fps = cap.get(cv2.CAP_PROP_FPS) or 30`: Python's `or` falls back to
30 exactly when the read frame rate is falsy, i.e. `0.0`. -/
def effectiveFps (rawFps : ℚ) : ℚ := if rawFps = 0 then 30 else rawFps

/-! ## Fixed-interval keyframe selector
(`VisualSearch.extract_keyframe_per_minute`) -/

/-- Outcome of one call to `extract_keyframe_per_minute`: the returned
list of `(frame, frame_index, timestamp)` triples or the exception that
escaped, together with whether `cap.release()` was reached (it sits
after the read loop, on the normal path only — there is no
`try/finally`). -/
structure ExtractResult (α : Type) where
  outcome : Except PyErr (List (α × ℕ × ℚ))
  released : Bool
deriving Repr

/-- The read loop of `extract_keyframe_per_minute`: for each decoded
frame, evaluate `frame_idx % frames_per_minute` — raising
`ZeroDivisionError` if `frames_per_minute` is zero — and append the
frame, its index, and `frame_idx / fps` when the remainder is zero. -/
def perMinuteLoop (fps : ℚ) (fpm : ℤ) : ℕ → List α → Except PyErr (List (α × ℕ × ℚ))
  | _, [] => .ok []
  | idx, f :: rest =>
    if fpm = 0 then .error .zeroDivision
    else
      match perMinuteLoop fps fpm (idx + 1) rest with
      | .error e => .error e
      | .ok l =>
        .ok (if pyMod idx fpm = 0 then (f, idx, (idx : ℚ) / fps) :: l else l)

/-- `VisualSearch.extract_keyframe_per_minute`: reads `fps` (with the
`or 30` fallback), computes `frames_per_minute = int(fps * 60)`, runs
the read loop over the frame stream, and releases the capture handle
only if the loop completes without raising. -/
def extract_keyframe_per_minute (rawFps : ℚ) (frames : List α) : ExtractResult α :=
  let fps := effectiveFps rawFps
  let fpm := pyInt (fps * 60)
  match perMinuteLoop fps fpm 0 frames with
  | .ok l => ⟨.ok l, true⟩
  | .error e => ⟨.error e, false⟩

/-! ## Histogram-change keyframe selector (`VisualSearch.extract_keyframes`)

The grayscale conversion, 256-bin histogram, normalisation and
`cv2.compareHist(..., HISTCMP_CORREL)` are OpenCV calls on the pixel
buffer; they are embedded as injected functions `calcHist` (the
composition `cvtColor ∘ calcHist ∘ normalize`) and `compareHist`. -/

/-- The read loop of `extract_keyframes`: `prev` is the histogram of the
last *emitted* frame (`None` before the first emission).  A frame is
emitted, and `prev` updated, exactly when there is no previous
histogram or the correlation with it falls below `threshold`. -/
def keyframesLoop (fps : ℚ) (calcHist : α → H) (compareHist : H → H → ℚ)
    (threshold : ℚ) : Option H → ℕ → List α → List (α × ℕ × ℚ)
  | _, _, [] => []
  | prev, idx, f :: rest =>
    let hist := calcHist f
    let emit : Bool :=
      match prev with
      | none => true
      | some p => decide (compareHist p hist < threshold)
    if emit then
      (f, idx, (idx : ℚ) / fps) ::
        keyframesLoop fps calcHist compareHist threshold (some hist) (idx + 1) rest
    else
      keyframesLoop fps calcHist compareHist threshold prev (idx + 1) rest

/-- `VisualSearch.extract_keyframes`: histogram-change selection with
the default `threshold = 0.6` supplied by callers explicitly here.
No statement in its body can raise, so `cap.release()` is always
reached. -/
def extract_keyframes (calcHist : α → H) (compareHist : H → H → ℚ)
    (rawFps threshold : ℚ) (frames : List α) : List (α × ℕ × ℚ) :=
  keyframesLoop (effectiveFps rawFps) calcHist compareHist threshold none 0 frames

/-! ## Orchestrator (`VisualSearch.fetch_timestamp`) and API endpoint -/

/-- A decoded frame: its pixel dimensions plus an abstract pixel
content (the buffer itself is opaque to the orchestrator logic). -/
structure Frame where
  height : ℕ
  width : ℕ
  content : ℕ
deriving DecidableEq, Repr

/-- One raw detection as handed back by the detector capability after
post-processing against `target_sizes = (frame.height, frame.width)`:
a pixel-space box `(x1, y1, x2, y2)`, a confidence score, and a label. -/
structure RawDet where
  box : ℚ × ℚ × ℚ × ℚ
  score : ℚ
  label : ℕ
deriving DecidableEq, Repr

/-- The detector capability injected into the orchestrator: the chain
`processor(images=..., text=query) → model(**inputs) →
post_process_grounded_object_detection(threshold=0.15, target_sizes)`
for one frame, which either returns the surviving detections or raises. -/
def Detector : Type := String → Frame → Except PyErr (List RawDet)

/-- One detection as materialised by the orchestrator's inner loop:
the printed record `Detected {label} with confidence {score} at
location {box} in {timestamp}` carrying the candidate frame's index and
timestamp; the box is `[round(x, 2) for x in box.tolist()]`. -/
structure Detection where
  label : ℕ
  score : ℚ
  box : ℚ × ℚ × ℚ × ℚ
  timestamp : ℚ
  frame_id : ℕ
deriving DecidableEq, Repr

/-- Round each coordinate of a box to two decimals, as the orchestrator
does before reporting a detection. -/
def roundBox (b : ℚ × ℚ × ℚ × ℚ) : ℚ × ℚ × ℚ × ℚ :=
  (pyRound2 b.1, pyRound2 b.2.1, pyRound2 b.2.2.1, pyRound2 b.2.2.2)

/-- The per-candidate loop of `fetch_timestamp`: bump `count_frame`,
invoke the detector (any exception propagates — there is no
`try/except` around the model call), and materialise one `Detection`
per raw detection of the frame, in order. -/
def detectionLoop (det : Detector) (query : String) :
    List (Frame × ℕ × ℚ) → Except PyErr (List Detection × ℕ)
  | [] => .ok ([], 0)
  | (f, fid, ts) :: rest =>
    match det query f with
    | .error e => .error e
    | .ok raws =>
      match detectionLoop det query rest with
      | .error e => .error e
      | .ok (ds, c) =>
        .ok ((raws.map fun r => ⟨r.label, r.score, roundBox r.box, ts, fid⟩) ++ ds, c + 1)

/-- A video file as the orchestrator sees it: whether
`cv2.VideoCapture` can open it, the frame rate `CAP_PROP_FPS` reports,
and the decoded frame stream. -/
structure Video where
  openable : Bool
  rawFps : ℚ
  frames : List Frame

/-- `VisualSearch.open_video`: raises `IOError` when the capture is not
opened, otherwise hands the caller the capture handle. -/
def open_video (v : Video) : Except PyErr (ℚ × List Frame) :=
  if v.openable then .ok (v.rawFps, v.frames) else .error .ioError

/-- Observable outcome of one successful `fetch_timestamp` run: the
detections materialised in the loop, the final `count_frame`, the
elapsed wall-clock time `time.time() - start_time`, and the function's
Python return value — `None`, since `fetch_timestamp` has no `return`
statement. -/
structure FetchTrace where
  dets : List Detection
  count : ℕ
  elapsed : ℚ
  retval : Option (List Detection)
deriving DecidableEq, Repr

/-- `VisualSearch.fetch_timestamp`: open the video, materialise the
fixed-interval candidates, run the detection loop, and report the
elapsed time from the two wall-clock readings `startT` (taken after a
successful open) and `endT` (taken after the loop).  The second
component records whether the capture handle acquired by `open_video`
was leaked: `True` exactly when the open succeeded but
`extract_keyframe_per_minute` raised before its `cap.release()`. -/
def fetch_timestamp (det : Detector) (query : String) (v : Video)
    (startT endT : ℚ) : Except PyErr FetchTrace × Bool :=
  match open_video v with
  | .error e => (.error e, false)
  | .ok (rawFps, frames) =>
    let er := extract_keyframe_per_minute rawFps frames
    match er.outcome with
    | .error e => (.error e, !er.released)
    | .ok cands =>
      match detectionLoop det query cands with
      | .error e => (.error e, false)
      | .ok (ds, c) => (.ok ⟨ds, c, endT - startT, none⟩, false)

/-- The body of the API route `perform_visual_search`
(`app/api/ai_service.py`): the payload of `VisualSearchResponse`.  A
pipeline exception becomes an HTTP 500 (`Except.error`). -/
structure VisualSearchResponse where
  query : String
  video_url : String
  total_frames_processed : ℕ
  processing_time : ℚ
  detections : List Detection
deriving DecidableEq, Repr

/-- `perform_visual_search`: ignores the request's `s3_url` for
processing (the video actually searched is the hardcoded
`app/storage/short_cctv.mp4`, here `storedVideo`), calls
`fetch_timestamp`, then overwrites `detections` with the empty list
(the `detections = []  # pr_delete` line) before building the response,
so `total_frames_processed = len(detections) = 0`. -/
def perform_visual_search (det : Detector) (storedVideo : Video)
    (user_query s3_url : String) (startT endT : ℚ) :
    Except PyErr VisualSearchResponse :=
  match (fetch_timestamp det user_query storedVideo startT endT).1 with
  | .error e => .error e
  | .ok _ =>
    let detections : List Detection := []
    .ok ⟨user_query, s3_url, detections.length, endT - startT, detections⟩

/-! ## Reference formulations and stub instances -/

/-- The fixed-interval selection as the spec words it: from the indexed
frame stream keep exactly the frames whose index has remainder zero
modulo `fpm`, in order, each paired with its index and `index / fps`. -/
def fixedIntervalSpec (fps : ℚ) (fpm : ℤ) (frames : List α) : List (α × ℕ × ℚ) :=
  frames.enum.filterMap fun p =>
    if pyMod p.1 fpm = 0 then some (p.2, p.1, (p.1 : ℚ) / fps) else none

/-- A box `(x1, y1, x2, y2)` lies within `[0, w] × [0, h]` of a frame
of width `w` and height `h`. -/
def BoxIn (b : ℚ × ℚ × ℚ × ℚ) (w h : ℕ) : Prop :=
  0 ≤ b.1 ∧ b.1 ≤ w ∧ 0 ≤ b.2.1 ∧ b.2.1 ≤ h ∧
    0 ≤ b.2.2.1 ∧ b.2.2.1 ≤ w ∧ 0 ≤ b.2.2.2 ∧ b.2.2.2 ≤ h

instance (b : ℚ × ℚ × ℚ × ℚ) (w h : ℕ) : Decidable (BoxIn b w h) := by
  unfold BoxIn; infer_instance

/-- A deterministic stub detector returning one fixed detection for
every frame. -/
def stubDet : Detector := fun _ _ => .ok [⟨(1, 2, 3, 4), 1/2, 0⟩]

/-- A stub detector whose single detection lies far outside any small
frame. -/
def oobDet : Detector := fun _ _ => .ok [⟨(-5, -5, 1000000, 1000000), 1/2, 0⟩]

/-- A deterministic stub detector that raises exactly on the frame with
pixel content 4 and detects one box everywhere else. -/
def failingDet : Detector := fun _ f =>
  if f.content = 4 then .error .detectionFailed else .ok [⟨(1, 1, 2, 2), 1/2, 0⟩]

/-- A one-frame 100×100 video at 30 fps. -/
def demoVideo : Video := ⟨true, 30, [⟨100, 100, 0⟩]⟩

/-- Ten 100×100 frames (contents 0..9) at `fps = 1/30`, so
`frames_per_minute = int(fps * 60) = 2` and the candidates are the five
even-indexed frames. -/
def tenFrameVideo : Video :=
  ⟨true, 1/30, [⟨100, 100, 0⟩, ⟨100, 100, 1⟩, ⟨100, 100, 2⟩, ⟨100, 100, 3⟩,
    ⟨100, 100, 4⟩, ⟨100, 100, 5⟩, ⟨100, 100, 6⟩, ⟨100, 100, 7⟩, ⟨100, 100, 8⟩,
    ⟨100, 100, 9⟩]⟩

/-! ## Lemmas about the fixed-interval loop -/

theorem perMinuteLoop_eq_spec {fpm : ℤ} (fps : ℚ) (h : fpm ≠ 0) (frames : List α) :
    ∀ i, perMinuteLoop fps fpm i frames =
      .ok ((frames.enumFrom i).filterMap fun p =>
        if pyMod p.1 fpm = 0 then some (p.2, p.1, (p.1 : ℚ) / fps) else none) := by
  induction frames with
  | nil => intro i; simp [perMinuteLoop]
  | cons f rest ih =>
    intro i
    rw [perMinuteLoop, if_neg h, ih (i + 1)]
    simp only [List.enumFrom, List.filterMap_cons]
    split <;> simp_all

theorem extract_per_minute_eq_spec (rawFps : ℚ) (frames : List α)
    (h : pyInt (effectiveFps rawFps * 60) ≠ 0) :
    extract_keyframe_per_minute rawFps frames =
      ⟨.ok (fixedIntervalSpec (effectiveFps rawFps) (pyInt (effectiveFps rawFps * 60)) frames),
        true⟩ := by
  show (match perMinuteLoop (effectiveFps rawFps) (pyInt (effectiveFps rawFps * 60)) 0 frames with
    | .ok l => (⟨.ok l, true⟩ : ExtractResult α)
    | .error e => ⟨.error e, false⟩) = _
  rw [perMinuteLoop_eq_spec _ h frames 0]
  rfl

theorem perMinuteLoop_index_lb (fps : ℚ) (fpm : ℤ) (frames : List α) :
    ∀ i l, perMinuteLoop fps fpm i frames = .ok l → ∀ x ∈ l, i ≤ x.2.1 := by
  induction frames with
  | nil =>
    intro i l hl x hx
    simp only [perMinuteLoop, Except.ok.injEq] at hl
    subst hl
    simp at hx
  | cons f rest ih =>
    intro i l hl x hx
    rw [perMinuteLoop] at hl
    by_cases hz : fpm = 0
    · rw [if_pos hz] at hl; exact absurd hl (by simp)
    · rw [if_neg hz] at hl
      cases hrec : perMinuteLoop fps fpm (i + 1) rest with
      | error e => rw [hrec] at hl; exact absurd hl (by simp)
      | ok l' =>
        rw [hrec] at hl
        simp only [Except.ok.injEq] at hl
        subst hl
        have hrest : ∀ y ∈ l', i ≤ y.2.1 := fun y hy =>
          Nat.le_of_succ_le (ih (i + 1) l' hrec y hy)
        by_cases hm : pyMod (i : ℤ) fpm = 0
        · rw [if_pos hm, List.mem_cons] at hx
          rcases hx with hx | hx
          · simp [hx]
          · exact hrest x hx
        · rw [if_neg hm] at hx
          exact hrest x hx

theorem perMinuteLoop_sublist (fps : ℚ) (fpm : ℤ) (frames : List α) :
    ∀ i l, perMinuteLoop fps fpm i frames = .ok l →
      List.Sublist (l.map fun t => t.1) frames := by
  induction frames with
  | nil =>
    intro i l hl
    simp only [perMinuteLoop, Except.ok.injEq] at hl
    subst hl
    simp
  | cons f rest ih =>
    intro i l hl
    rw [perMinuteLoop] at hl
    by_cases hz : fpm = 0
    · rw [if_pos hz] at hl; exact absurd hl (by simp)
    · rw [if_neg hz] at hl
      cases hrec : perMinuteLoop fps fpm (i + 1) rest with
      | error e => rw [hrec] at hl; exact absurd hl (by simp)
      | ok l' =>
        rw [hrec] at hl
        simp only [Except.ok.injEq] at hl
        subst hl
        have hsub := ih (i + 1) l' hrec
        by_cases hm : pyMod (i : ℤ) fpm = 0
        · rw [if_pos hm]
          simpa using hsub.cons₂ f
        · rw [if_neg hm]
          exact hsub.cons f

theorem perMinuteLoop_pairwise (fps : ℚ) (fpm : ℤ) (frames : List α) :
    ∀ i l, perMinuteLoop fps fpm i frames = .ok l →
      (l.map fun t => t.2.1).Pairwise (· < ·) := by
  induction frames with
  | nil =>
    intro i l hl
    simp only [perMinuteLoop, Except.ok.injEq] at hl
    subst hl
    simp
  | cons f rest ih =>
    intro i l hl
    rw [perMinuteLoop] at hl
    by_cases hz : fpm = 0
    · rw [if_pos hz] at hl; exact absurd hl (by simp)
    · rw [if_neg hz] at hl
      cases hrec : perMinuteLoop fps fpm (i + 1) rest with
      | error e => rw [hrec] at hl; exact absurd hl (by simp)
      | ok l' =>
        rw [hrec] at hl
        simp only [Except.ok.injEq] at hl
        subst hl
        have hpw := ih (i + 1) l' hrec
        have hlb := perMinuteLoop_index_lb fps fpm rest (i + 1) l' hrec
        by_cases hm : pyMod (i : ℤ) fpm = 0
        · rw [if_pos hm]
          refine List.Pairwise.cons ?_ hpw
          intro j hj
          simp only [List.map_cons, List.mem_cons] at hj ⊢
          simp only [List.mem_map] at hj
          obtain ⟨x, hx, rfl⟩ := hj
          exact Nat.lt_of_succ_le (hlb x hx)
        · rw [if_neg hm]
          exact hpw

theorem perMinuteLoop_timestamps (fps : ℚ) (fpm : ℤ) (frames : List α) :
    ∀ i l, perMinuteLoop fps fpm i frames = .ok l →
      ∀ x ∈ l, x.2.2 = (x.2.1 : ℚ) / fps := by
  induction frames with
  | nil =>
    intro i l hl x hx
    simp only [perMinuteLoop, Except.ok.injEq] at hl
    subst hl
    simp at hx
  | cons f rest ih =>
    intro i l hl x hx
    rw [perMinuteLoop] at hl
    by_cases hz : fpm = 0
    · rw [if_pos hz] at hl; exact absurd hl (by simp)
    · rw [if_neg hz] at hl
      cases hrec : perMinuteLoop fps fpm (i + 1) rest with
      | error e => rw [hrec] at hl; exact absurd hl (by simp)
      | ok l' =>
        rw [hrec] at hl
        simp only [Except.ok.injEq] at hl
        subst hl
        by_cases hm : pyMod (i : ℤ) fpm = 0
        · rw [if_pos hm, List.mem_cons] at hx
          rcases hx with hx | hx
          · simp [hx]
          · exact ih (i + 1) l' hrec x hx
        · rw [if_neg hm] at hx
          exact ih (i + 1) l' hrec x hx

theorem perMinuteLoop_total {fpm : ℤ} (fps : ℚ) (h : fpm ≠ 0) (frames : List α) (i : ℕ) :
    ∃ l, perMinuteLoop fps fpm i frames = .ok l :=
  ⟨_, perMinuteLoop_eq_spec fps h frames i⟩

/-! ## Lemmas about the histogram-change loop -/

theorem keyframesLoop_nil (fps : ℚ) (calcHist : α → H) (cmp : H → H → ℚ) (T : ℚ)
    (prev : Option H) (i : ℕ) : keyframesLoop fps calcHist cmp T prev i [] = [] := rfl

theorem keyframesLoop_cons_none (fps : ℚ) (calcHist : α → H) (cmp : H → H → ℚ) (T : ℚ)
    (i : ℕ) (f : α) (rest : List α) :
    keyframesLoop fps calcHist cmp T none i (f :: rest) =
      (f, i, (i : ℚ) / fps) ::
        keyframesLoop fps calcHist cmp T (some (calcHist f)) (i + 1) rest := rfl

theorem keyframesLoop_cons_emit (fps : ℚ) (calcHist : α → H) (cmp : H → H → ℚ) (T : ℚ)
    (p : H) (i : ℕ) (f : α) (rest : List α) (hc : cmp p (calcHist f) < T) :
    keyframesLoop fps calcHist cmp T (some p) i (f :: rest) =
      (f, i, (i : ℚ) / fps) ::
        keyframesLoop fps calcHist cmp T (some (calcHist f)) (i + 1) rest := by
  simp [keyframesLoop, hc]

theorem keyframesLoop_cons_skip (fps : ℚ) (calcHist : α → H) (cmp : H → H → ℚ) (T : ℚ)
    (p : H) (i : ℕ) (f : α) (rest : List α) (hc : ¬ cmp p (calcHist f) < T) :
    keyframesLoop fps calcHist cmp T (some p) i (f :: rest) =
      keyframesLoop fps calcHist cmp T (some p) (i + 1) rest := by
  simp [keyframesLoop, hc]

theorem keyframesLoop_index_lb (fps : ℚ) (calcHist : α → H) (cmp : H → H → ℚ) (T : ℚ)
    (frames : List α) : ∀ (prev : Option H) (i : ℕ),
      ∀ x ∈ keyframesLoop fps calcHist cmp T prev i frames, i ≤ x.2.1 := by
  induction frames with
  | nil => intro prev i x hx; rw [keyframesLoop_nil] at hx; simp at hx
  | cons f rest ih =>
    intro prev i x hx
    have step : ∀ y ∈ keyframesLoop fps calcHist cmp T (some (calcHist f)) (i + 1) rest,
        i ≤ y.2.1 := fun y hy => Nat.le_of_succ_le (ih _ (i + 1) y hy)
    cases prev with
    | none =>
      rw [keyframesLoop_cons_none, List.mem_cons] at hx
      rcases hx with hx | hx
      · simp [hx]
      · exact step x hx
    | some p =>
      by_cases hc : cmp p (calcHist f) < T
      · rw [keyframesLoop_cons_emit fps calcHist cmp T p i f rest hc, List.mem_cons] at hx
        rcases hx with hx | hx
        · simp [hx]
        · exact step x hx
      · rw [keyframesLoop_cons_skip fps calcHist cmp T p i f rest hc] at hx
        exact Nat.le_of_succ_le (ih _ (i + 1) x hx)

theorem keyframesLoop_sublist (fps : ℚ) (calcHist : α → H) (cmp : H → H → ℚ) (T : ℚ)
    (frames : List α) : ∀ (prev : Option H) (i : ℕ),
      List.Sublist ((keyframesLoop fps calcHist cmp T prev i frames).map fun t => t.1)
        frames := by
  induction frames with
  | nil => intro prev i; rw [keyframesLoop_nil]; simp
  | cons f rest ih =>
    intro prev i
    cases prev with
    | none =>
      rw [keyframesLoop_cons_none]
      simpa using (ih (some (calcHist f)) (i + 1)).cons₂ f
    | some p =>
      by_cases hc : cmp p (calcHist f) < T
      · rw [keyframesLoop_cons_emit fps calcHist cmp T p i f rest hc]
        simpa using (ih (some (calcHist f)) (i + 1)).cons₂ f
      · rw [keyframesLoop_cons_skip fps calcHist cmp T p i f rest hc]
        exact (ih (some p) (i + 1)).cons f

theorem keyframesLoop_pairwise (fps : ℚ) (calcHist : α → H) (cmp : H → H → ℚ) (T : ℚ)
    (frames : List α) : ∀ (prev : Option H) (i : ℕ),
      ((keyframesLoop fps calcHist cmp T prev i frames).map fun t => t.2.1).Pairwise
        (· < ·) := by
  induction frames with
  | nil => intro prev i; rw [keyframesLoop_nil]; simp
  | cons f rest ih =>
    intro prev i
    have hd : ((((f, i, (i : ℚ) / fps) : α × ℕ × ℚ) ::
        keyframesLoop fps calcHist cmp T (some (calcHist f)) (i + 1) rest).map
          fun t => t.2.1).Pairwise (· < ·) := by
      simp only [List.map_cons]
      refine List.Pairwise.cons ?_ (ih (some (calcHist f)) (i + 1))
      intro j hj
      simp only [List.mem_map] at hj
      obtain ⟨x, hx, rfl⟩ := hj
      exact Nat.lt_of_succ_le (keyframesLoop_index_lb fps calcHist cmp T rest _ (i + 1) x hx)
    cases prev with
    | none => rw [keyframesLoop_cons_none]; exact hd
    | some p =>
      by_cases hc : cmp p (calcHist f) < T
      · rw [keyframesLoop_cons_emit fps calcHist cmp T p i f rest hc]; exact hd
      · rw [keyframesLoop_cons_skip fps calcHist cmp T p i f rest hc]
        exact ih (some p) (i + 1)

theorem keyframesLoop_timestamps (fps : ℚ) (calcHist : α → H) (cmp : H → H → ℚ) (T : ℚ)
    (frames : List α) : ∀ (prev : Option H) (i : ℕ),
      ∀ x ∈ keyframesLoop fps calcHist cmp T prev i frames, x.2.2 = (x.2.1 : ℚ) / fps := by
  induction frames with
  | nil => intro prev i x hx; rw [keyframesLoop_nil] at hx; simp at hx
  | cons f rest ih =>
    intro prev i x hx
    cases prev with
    | none =>
      rw [keyframesLoop_cons_none, List.mem_cons] at hx
      rcases hx with hx | hx
      · simp [hx]
      · exact ih _ (i + 1) x hx
    | some p =>
      by_cases hc : cmp p (calcHist f) < T
      · rw [keyframesLoop_cons_emit fps calcHist cmp T p i f rest hc, List.mem_cons] at hx
        rcases hx with hx | hx
        · simp [hx]
        · exact ih _ (i + 1) x hx
      · rw [keyframesLoop_cons_skip fps calcHist cmp T p i f rest hc] at hx
        exact ih _ (i + 1) x hx

theorem keyframesLoop_replicate (fps : ℚ) (calcHist : α → H) (cmp : H → H → ℚ) (T : ℚ)
    (f : α) (hcorr : cmp (calcHist f) (calcHist f) = 1) (hT : T ≤ 1) :
    ∀ (m i : ℕ),
      keyframesLoop fps calcHist cmp T (some (calcHist f)) i (List.replicate m f) = [] := by
  intro m
  induction m with
  | zero => intro i; simp [keyframesLoop_nil]
  | succ m ih =>
    intro i
    rw [List.replicate_succ,
      keyframesLoop_cons_skip fps calcHist cmp T _ i f _ (by rw [hcorr]; exact not_lt.mpr hT)]
    exact ih (i + 1)

theorem keyframesLoop_second_identical_not_mem (fps : ℚ) (calcHist : α → H)
    (cmp : H → H → ℚ) (T : ℚ) (hcorr : ∀ h : H, cmp h h = 1) (hT : T ≤ 1)
    (f : α) (l2 : List α) : ∀ (l1 : List α) (prev : Option H) (i : ℕ),
      (i + l1.length + 1) ∉
        (keyframesLoop fps calcHist cmp T prev i (l1 ++ f :: f :: l2)).map
          fun t => t.2.1 := by
  have hskip : ∀ (i : ℕ),
      keyframesLoop fps calcHist cmp T (some (calcHist f)) i (f :: l2) =
        keyframesLoop fps calcHist cmp T (some (calcHist f)) (i + 1) l2 := fun i =>
    keyframesLoop_cons_skip fps calcHist cmp T _ i f l2 (by rw [hcorr]; exact not_lt.mpr hT)
  have hbase : ∀ (prev : Option H) (i : ℕ), (i + 1) ∉
      (keyframesLoop fps calcHist cmp T prev i (f :: f :: l2)).map fun t => t.2.1 := by
    intro prev i hmem
    have htail : ∀ (p' : Option H), (i + 1) ∈
        (keyframesLoop fps calcHist cmp T p' (i + 2) l2).map (fun t => t.2.1) → False := by
      intro p' hm
      simp only [List.mem_map] at hm
      obtain ⟨x, hx, hxe⟩ := hm
      have := keyframesLoop_index_lb fps calcHist cmp T l2 p' (i + 2) x hx
      omega
    cases prev with
    | none =>
      rw [keyframesLoop_cons_none, hskip (i + 1)] at hmem
      simp only [List.map_cons, List.mem_cons] at hmem
      rcases hmem with hmem | hmem
      · omega
      · exact htail _ hmem
    | some p =>
      by_cases hc : cmp p (calcHist f) < T
      · rw [keyframesLoop_cons_emit fps calcHist cmp T p i f _ hc, hskip (i + 1)] at hmem
        simp only [List.map_cons, List.mem_cons] at hmem
        rcases hmem with hmem | hmem
        · omega
        · exact htail _ hmem
      · rw [keyframesLoop_cons_skip fps calcHist cmp T p i f _ hc,
          keyframesLoop_cons_skip fps calcHist cmp T p (i + 1) f l2 hc] at hmem
        exact htail _ hmem
  intro l1
  induction l1 with
  | nil => intro prev i; simpa using hbase prev i
  | cons g l1' ih =>
    intro prev i hmem
    have hnotail : (i + (g :: l1').length + 1) ∉
        (keyframesLoop fps calcHist cmp T (some (calcHist g)) (i + 1)
          (l1' ++ f :: f :: l2)).map fun t => t.2.1 := by
      have := ih (some (calcHist g)) (i + 1)
      simpa [Nat.add_assoc, Nat.add_comm, Nat.add_left_comm] using this
    have hnotail' : (i + (g :: l1').length + 1) ∉
        (keyframesLoop fps calcHist cmp T prev (i + 1)
          (l1' ++ f :: f :: l2)).map fun t => t.2.1 := by
      have := ih prev (i + 1)
      simpa [Nat.add_assoc, Nat.add_comm, Nat.add_left_comm] using this
    rw [List.cons_append] at hmem
    cases prev with
    | none =>
      rw [keyframesLoop_cons_none] at hmem
      simp only [List.map_cons, List.mem_cons] at hmem
      rcases hmem with hmem | hmem
      · simp at hmem; omega
      · exact hnotail hmem
    | some p =>
      by_cases hc : cmp p (calcHist g) < T
      · rw [keyframesLoop_cons_emit fps calcHist cmp T p i g _ hc] at hmem
        simp only [List.map_cons, List.mem_cons] at hmem
        rcases hmem with hmem | hmem
        · simp at hmem; omega
        · exact hnotail hmem
      · rw [keyframesLoop_cons_skip fps calcHist cmp T p i g _ hc] at hmem
        exact hnotail' hmem

/-! ## Lemmas about rounding and the detection loop -/

theorem roundHalfEven_eq_floor_or (q : ℚ) :
    roundHalfEven q = ⌊q⌋ ∨ roundHalfEven q = ⌊q⌋ + 1 := by
  unfold roundHalfEven
  split
  · exact .inl rfl
  split
  · exact .inr rfl
  split
  · exact .inl rfl
  · exact .inr rfl

theorem roundHalfEven_bounds {q : ℚ} {m : ℤ} (h0 : 0 ≤ q) (hm : q ≤ m) :
    0 ≤ roundHalfEven q ∧ roundHalfEven q ≤ m := by
  have hfl0 : (0 : ℤ) ≤ ⌊q⌋ := Int.floor_nonneg.mpr h0
  have hflm : ⌊q⌋ ≤ m := by
    have := Int.floor_le_floor hm
    simpa using this
  rcases eq_or_lt_of_le hflm with heq | hlt
  · have hq : q = (m : ℚ) := le_antisymm hm (by
      calc (m : ℚ) = ((⌊q⌋ : ℤ) : ℚ) := by exact_mod_cast heq.symm
        _ ≤ q := Int.floor_le q)
    have hcond : q - ⌊q⌋ < 1/2 := by
      rw [hq, Int.floor_intCast]
      norm_num
    unfold roundHalfEven
    rw [if_pos hcond]
    exact ⟨hfl0, hflm⟩
  · rcases roundHalfEven_eq_floor_or q with h | h <;> rw [h] <;> constructor <;> omega

theorem pyRound2_bounds {x : ℚ} {n : ℕ} (h0 : 0 ≤ x) (hn : x ≤ n) :
    0 ≤ pyRound2 x ∧ pyRound2 x ≤ n := by
  have h0' : 0 ≤ x * 100 := by positivity
  have hn' : x * 100 ≤ ((100 * (n : ℤ) : ℤ) : ℚ) := by push_cast; linarith
  obtain ⟨hA, hB⟩ := roundHalfEven_bounds h0' hn'
  unfold pyRound2
  constructor
  · exact div_nonneg (by exact_mod_cast hA) (by norm_num)
  · rw [div_le_iff₀ (by norm_num : (0:ℚ) < 100)]
    have : ((roundHalfEven (x * 100) : ℤ) : ℚ) ≤ ((100 * (n : ℤ) : ℤ) : ℚ) := by
      exact_mod_cast hB
    push_cast at this ⊢
    linarith

theorem roundBox_in {b : ℚ × ℚ × ℚ × ℚ} {w h : ℕ} (hb : BoxIn b w h) :
    BoxIn (roundBox b) w h := by
  obtain ⟨h1, h2, h3, h4, h5, h6, h7, h8⟩ := hb
  exact ⟨(pyRound2_bounds h1 h2).1, (pyRound2_bounds h1 h2).2,
    (pyRound2_bounds h3 h4).1, (pyRound2_bounds h3 h4).2,
    (pyRound2_bounds h5 h6).1, (pyRound2_bounds h5 h6).2,
    (pyRound2_bounds h7 h8).1, (pyRound2_bounds h7 h8).2⟩

theorem detectionLoop_error_of_mem (det : Detector) (q : String) (e : PyErr) :
    ∀ (pre : List (Frame × ℕ × ℚ)) (c : Frame × ℕ × ℚ) (post : List (Frame × ℕ × ℚ)),
      (∀ x ∈ pre, ∃ r, det q x.1 = .ok r) → det q c.1 = .error e →
      detectionLoop det q (pre ++ c :: post) = .error e := by
  intro pre
  induction pre with
  | nil =>
    intro c post _ hc
    obtain ⟨f, fid, ts⟩ := c
    simp only [List.nil_append, detectionLoop]
    rw [hc]
  | cons a pre' ih =>
    intro c post hpre hc
    obtain ⟨f, fid, ts⟩ := a
    obtain ⟨r, hr⟩ := hpre (f, fid, ts) (List.mem_cons_self _ _)
    have hrec := ih c post (fun x hx => hpre x (List.mem_cons_of_mem _ hx)) hc
    simp only [List.cons_append, detectionLoop, hr, List.append_eq, hrec]

theorem pairwise_le_const {β : Type} (n : ℕ) (l : List β) :
    (l.map fun _ => n).Pairwise (fun a b => a ≤ b) := by
  induction l with
  | nil => simp
  | cons x xs ih =>
    simp only [List.map_cons, List.pairwise_cons]
    refine ⟨fun y hy => ?_, ih⟩
    simp only [List.mem_map] at hy
    obtain ⟨_, _, rfl⟩ := hy
    exact le_rfl

theorem detectionLoop_ids_mem (det : Detector) (q : String) :
    ∀ (cands : List (Frame × ℕ × ℚ)) (ds : List Detection) (c : ℕ),
      detectionLoop det q cands = .ok (ds, c) →
      ∀ d ∈ ds, d.frame_id ∈ cands.map fun t => t.2.1 := by
  intro cands
  induction cands with
  | nil =>
    intro ds c hl d hd
    simp only [detectionLoop, Except.ok.injEq, Prod.mk.injEq] at hl
    obtain ⟨hds, -⟩ := hl
    subst hds
    simp at hd
  | cons a rest ih =>
    intro ds c hl d hd
    obtain ⟨f, fid, ts⟩ := a
    rw [detectionLoop] at hl
    cases hdet : det q f with
    | error e => rw [hdet] at hl; exact absurd hl (by simp)
    | ok raws =>
      rw [hdet] at hl
      cases hrec : detectionLoop det q rest with
      | error e => rw [hrec] at hl; exact absurd hl (by simp)
      | ok p =>
        obtain ⟨ds', c'⟩ := p
        rw [hrec] at hl
        simp only [Except.ok.injEq, Prod.mk.injEq] at hl
        obtain ⟨hds, _⟩ := hl
        subst hds
        rw [List.mem_append] at hd
        rcases hd with hd | hd
        · simp only [List.mem_map] at hd
          obtain ⟨r, _, rfl⟩ := hd
          simp
        · simp only [List.map_cons, List.mem_cons]
          exact .inr (ih ds' c' hrec d hd)

theorem detectionLoop_ids_pairwise (det : Detector) (q : String) :
    ∀ (cands : List (Frame × ℕ × ℚ)) (ds : List Detection) (c : ℕ),
      detectionLoop det q cands = .ok (ds, c) →
      (cands.map fun t => t.2.1).Pairwise (· < ·) →
      (ds.map fun d => d.frame_id).Pairwise (· ≤ ·) := by
  intro cands
  induction cands with
  | nil =>
    intro ds c hl _
    simp only [detectionLoop, Except.ok.injEq, Prod.mk.injEq] at hl
    obtain ⟨hds, -⟩ := hl
    subst hds
    simp
  | cons a rest ih =>
    intro ds c hl hpw
    obtain ⟨f, fid, ts⟩ := a
    rw [detectionLoop] at hl
    cases hdet : det q f with
    | error e => rw [hdet] at hl; exact absurd hl (by simp)
    | ok raws =>
      rw [hdet] at hl
      cases hrec : detectionLoop det q rest with
      | error e => rw [hrec] at hl; exact absurd hl (by simp)
      | ok p =>
        obtain ⟨ds', c'⟩ := p
        rw [hrec] at hl
        simp only [Except.ok.injEq, Prod.mk.injEq] at hl
        obtain ⟨hds, _⟩ := hl
        subst hds
        simp only [List.map_cons, List.pairwise_cons] at hpw
        obtain ⟨hlt, hpw'⟩ := hpw
        rw [List.map_append, List.pairwise_append]
        refine ⟨?_, ih ds' c' hrec hpw', ?_⟩
        · rw [List.map_map]
          exact pairwise_le_const fid raws
        · intro x hx y hy
          rw [List.map_map, List.mem_map] at hx
          obtain ⟨r, _, rfl⟩ := hx
          rw [List.mem_map] at hy
          obtain ⟨d, hd, rfl⟩ := hy
          exact le_of_lt (hlt _ (detectionLoop_ids_mem det q rest ds' c' hrec d hd))

theorem detectionLoop_boxes (det : Detector) (q : String) (w h : ℕ) :
    ∀ (cands : List (Frame × ℕ × ℚ)) (ds : List Detection) (c : ℕ),
      detectionLoop det q cands = .ok (ds, c) →
      (∀ x ∈ cands, ∀ raws, det q x.1 = .ok raws → ∀ r ∈ raws, BoxIn r.box w h) →
      ∀ d ∈ ds, BoxIn d.box w h := by
  intro cands
  induction cands with
  | nil =>
    intro ds c hl _ d hd
    simp only [detectionLoop, Except.ok.injEq, Prod.mk.injEq] at hl
    obtain ⟨hds, -⟩ := hl
    subst hds
    simp at hd
  | cons a rest ih =>
    intro ds c hl hdet d hd
    obtain ⟨f, fid, ts⟩ := a
    rw [detectionLoop] at hl
    cases hdetf : det q f with
    | error e => rw [hdetf] at hl; exact absurd hl (by simp)
    | ok raws =>
      rw [hdetf] at hl
      cases hrec : detectionLoop det q rest with
      | error e => rw [hrec] at hl; exact absurd hl (by simp)
      | ok p =>
        obtain ⟨ds', c'⟩ := p
        rw [hrec] at hl
        simp only [Except.ok.injEq, Prod.mk.injEq] at hl
        obtain ⟨hds, -⟩ := hl
        subst hds
        rw [List.mem_append] at hd
        rcases hd with hd | hd
        · simp only [List.mem_map] at hd
          obtain ⟨r, hr, rfl⟩ := hd
          exact roundBox_in (hdet (f, fid, ts) (List.mem_cons_self _ _) raws hdetf r hr)
        · exact ih ds' c' hrec (fun x hx => hdet x (List.mem_cons_of_mem _ hx)) d hd

/-! ## Lemmas about the orchestrator -/

theorem extract_outcome_ok (rawFps : ℚ) (frames : List α) {l : List (α × ℕ × ℚ)}
    (h : (extract_keyframe_per_minute rawFps frames).outcome = .ok l) :
    perMinuteLoop (effectiveFps rawFps) (pyInt (effectiveFps rawFps * 60)) 0 frames =
      .ok l := by
  cases hp : perMinuteLoop (effectiveFps rawFps) (pyInt (effectiveFps rawFps * 60)) 0 frames
    with
  | ok a =>
    have he : extract_keyframe_per_minute rawFps frames = ⟨.ok a, true⟩ := by
      simp only [extract_keyframe_per_minute, hp]
    rw [he] at h
    simpa using h
  | error e =>
    have he : extract_keyframe_per_minute rawFps frames = ⟨.error e, false⟩ := by
      simp only [extract_keyframe_per_minute, hp]
    rw [he] at h
    simp at h

theorem extract_released_of_ok (rawFps : ℚ) (frames : List α) {l : List (α × ℕ × ℚ)}
    (h : (extract_keyframe_per_minute rawFps frames).outcome = .ok l) :
    (extract_keyframe_per_minute rawFps frames).released = true := by
  have hp := extract_outcome_ok rawFps frames h
  simp only [extract_keyframe_per_minute, hp]

theorem extract_released_iff (rawFps : ℚ) (frames : List α) :
    (extract_keyframe_per_minute rawFps frames).released = true ↔
      ∃ l, (extract_keyframe_per_minute rawFps frames).outcome = .ok l := by
  cases hp : perMinuteLoop (effectiveFps rawFps) (pyInt (effectiveFps rawFps * 60)) 0 frames
    with
  | ok a =>
    have he : extract_keyframe_per_minute rawFps frames = ⟨.ok a, true⟩ := by
      simp only [extract_keyframe_per_minute, hp]
    rw [he]
    simp
  | error e =>
    have he : extract_keyframe_per_minute rawFps frames = ⟨.error e, false⟩ := by
      simp only [extract_keyframe_per_minute, hp]
    rw [he]
    simp

theorem fetch_timestamp_ok_eq (det : Detector) (q : String) (v : Video) (t0 t1 : ℚ)
    (hopen : v.openable = true) {cands : List (Frame × ℕ × ℚ)}
    (hex : (extract_keyframe_per_minute v.rawFps v.frames).outcome = .ok cands) :
    fetch_timestamp det q v t0 t1 =
      match detectionLoop det q cands with
      | .error e => (.error e, false)
      | .ok (ds, c) => (.ok ⟨ds, c, t1 - t0, none⟩, false) := by
  have ho : open_video v = .ok (v.rawFps, v.frames) := by simp [open_video, hopen]
  simp only [fetch_timestamp, ho, hex]

theorem fetch_timestamp_ok_inv (det : Detector) (q : String) (v : Video) (t0 t1 : ℚ)
    (tr : FetchTrace) (lk : Bool) (h : fetch_timestamp det q v t0 t1 = (.ok tr, lk)) :
    v.openable = true ∧ ∃ cands,
      (extract_keyframe_per_minute v.rawFps v.frames).outcome = .ok cands ∧
      detectionLoop det q cands = .ok (tr.dets, tr.count) := by
  by_cases hopen : v.openable = true
  · refine ⟨hopen, ?_⟩
    cases hex : (extract_keyframe_per_minute v.rawFps v.frames).outcome with
    | error e =>
      have ho : open_video v = .ok (v.rawFps, v.frames) := by simp [open_video, hopen]
      rw [show fetch_timestamp det q v t0 t1 =
          (.error e, !(extract_keyframe_per_minute v.rawFps v.frames).released) by
        simp only [fetch_timestamp, ho, hex]] at h
      exact absurd h (by simp)
    | ok cands =>
      rw [fetch_timestamp_ok_eq det q v t0 t1 hopen hex] at h
      cases hdl : detectionLoop det q cands with
      | error e => rw [hdl] at h; exact absurd h (by simp)
      | ok p =>
        obtain ⟨ds, c⟩ := p
        rw [hdl] at h
        simp only [Prod.mk.injEq, Except.ok.injEq] at h
        obtain ⟨htr, -⟩ := h
        subst htr
        exact ⟨cands, rfl, hdl⟩
  · have ho : open_video v = .error .ioError := by simp [open_video, hopen]
    rw [show fetch_timestamp det q v t0 t1 = (.error .ioError, false) by
      simp only [fetch_timestamp, ho]] at h
    exact absurd h (by simp)

theorem fetch_timestamp_leak_iff (det : Detector) (q : String) (v : Video) (t0 t1 : ℚ) :
    (fetch_timestamp det q v t0 t1).2 = true ↔
      v.openable = true ∧
        (extract_keyframe_per_minute v.rawFps v.frames).released = false := by
  by_cases hopen : v.openable = true
  · have ho : open_video v = .ok (v.rawFps, v.frames) := by simp [open_video, hopen]
    cases hex : (extract_keyframe_per_minute v.rawFps v.frames).outcome with
    | error e =>
      rw [show fetch_timestamp det q v t0 t1 =
          (.error e, !(extract_keyframe_per_minute v.rawFps v.frames).released) by
        simp only [fetch_timestamp, ho, hex]]
      cases hrel : (extract_keyframe_per_minute v.rawFps v.frames).released <;>
        simp [hopen, hrel]
    | ok cands =>
      rw [fetch_timestamp_ok_eq det q v t0 t1 hopen hex]
      have hrel := extract_released_of_ok v.rawFps v.frames hex
      cases hdl : detectionLoop det q cands with
      | error e => simp [hopen, hrel]
      | ok p => obtain ⟨ds, c⟩ := p; simp [hopen, hrel]
  · have ho : open_video v = .error .ioError := by simp [open_video, hopen]
    rw [show fetch_timestamp det q v t0 t1 = (.error .ioError, false) by
      simp only [fetch_timestamp, ho]]
    simp [hopen]

/-! ## Claim theorems -/

/-- Claim C1 (code-bug evaluation).  The claim says `fetch_timestamp`
returns the aggregated DetectionResult list, the candidate count and the
elapsed time, and that the endpoint returns those detections.  In the
code `fetch_timestamp` has no `return` statement (its Python value is
`None`, the `retval` field below) and `perform_visual_search` overwrites
`detections` with `[]` (the `# pr_delete` line), so the response carries
no detections and `total_frames_processed = len([]) = 0`, even though
the run materialised one detection on its single candidate frame. -/
theorem fetch_returns_none_and_endpoint_discards :
    fetch_timestamp stubDet "girl with pink shirt" demoVideo 0 5 =
      (.ok ⟨[⟨0, 1/2, (1, 2, 3, 4), 0, 0⟩], 1, 5, none⟩, false) ∧
    perform_visual_search stubDet demoVideo "girl with pink shirt"
        "https://s3.amazonaws.com/bucket/video.mp4" 0 5 =
      .ok ⟨"girl with pink shirt", "https://s3.amazonaws.com/bucket/video.mp4", 0, 5,
        []⟩ := by
  have hfpm : pyInt (effectiveFps (30 : ℚ) * 60) = 1800 := by
    norm_num [pyInt, effectiveFps]
  have hfpm2 : pyInt ((1800 : ℚ)) = 1800 := by norm_num [pyInt]
  have hpm0 : pyMod (0 : ℤ) 1800 = 0 := by decide
  have hfetch : fetch_timestamp stubDet "girl with pink shirt" demoVideo 0 5 =
      (.ok ⟨[⟨0, 1/2, (1, 2, 3, 4), 0, 0⟩], 1, 5, none⟩, false) := by
    norm_num [fetch_timestamp, open_video, demoVideo, extract_keyframe_per_minute, hfpm,
      hfpm2, effectiveFps, perMinuteLoop, hpm0, detectionLoop, stubDet, roundBox,
      pyRound2, roundHalfEven]
  refine ⟨hfetch, ?_⟩
  norm_num [perform_visual_search, hfetch]

/-- Claim C2 (counterexample).  Ten frames at `fps = 1/30` give five
candidates (indices 0,2,4,6,8); the stub detector raises on the third
(content 4).  The claim says the search treats that frame as zero
detections and continues to completion; instead the whole run aborts
with the detector's error. -/
theorem detector_failure_aborts_counterexample :
    fetch_timestamp failingDet "girl with pink shirt" tenFrameVideo 0 1 =
      (.error .detectionFailed, false) := by
  have hfpm : pyInt (effectiveFps (1/30 : ℚ) * 60) = 2 := by
    norm_num [pyInt, effectiveFps]
  have hfpm2 : pyInt ((2 : ℚ)) = 2 := by norm_num [pyInt]
  have h0 : pyMod (0 : ℤ) 2 = 0 := by decide
  have h1 : pyMod (1 : ℤ) 2 = 1 := by decide
  have h2 : pyMod (2 : ℤ) 2 = 0 := by decide
  have h3 : pyMod (3 : ℤ) 2 = 1 := by decide
  have h4 : pyMod (4 : ℤ) 2 = 0 := by decide
  have h5 : pyMod (5 : ℤ) 2 = 1 := by decide
  have h6 : pyMod (6 : ℤ) 2 = 0 := by decide
  have h7 : pyMod (7 : ℤ) 2 = 1 := by decide
  have h8 : pyMod (8 : ℤ) 2 = 0 := by decide
  have h9 : pyMod (9 : ℤ) 2 = 1 := by decide
  norm_num [fetch_timestamp, open_video, tenFrameVideo, extract_keyframe_per_minute,
    hfpm, hfpm2, perMinuteLoop, effectiveFps, h0, h1, h2, h3, h4, h5, h6, h7, h8, h9,
    detectionLoop, failingDet]

/-- Claim C2 (amended).  A detector exception on one candidate is not
absorbed: there is no `try/except` around the model invocation, so the
exception propagates out of `fetch_timestamp` and the remaining
candidates are never processed — the whole search aborts with that
error. -/
theorem detector_failure_propagates (det : Detector) (q : String) (v : Video)
    (t0 t1 : ℚ) (e : PyErr) (pre : List (Frame × ℕ × ℚ)) (c : Frame × ℕ × ℚ)
    (post : List (Frame × ℕ × ℚ)) (hopen : v.openable = true)
    (hex : (extract_keyframe_per_minute v.rawFps v.frames).outcome = .ok (pre ++ c :: post))
    (hpre : ∀ x ∈ pre, ∃ r, det q x.1 = .ok r) (hc : det q c.1 = .error e) :
    fetch_timestamp det q v t0 t1 = (.error e, false) := by
  rw [fetch_timestamp_ok_eq det q v t0 t1 hopen hex,
    detectionLoop_error_of_mem det q e pre c post hpre hc]

/-- Witness for the amended C2 theorem at a concrete five-candidate
video with the detector failing on the third candidate. -/
theorem detector_failure_propagates_witness :
    fetch_timestamp failingDet "girl" tenFrameVideo 0 2 =
      (.error .detectionFailed, false) :=
  detector_failure_propagates failingDet "girl" tenFrameVideo 0 2 .detectionFailed
    [(⟨100, 100, 0⟩, 0, 0), (⟨100, 100, 2⟩, 2, 60)] (⟨100, 100, 4⟩, 4, 120)
    [(⟨100, 100, 6⟩, 6, 180), (⟨100, 100, 8⟩, 8, 240)] rfl
    (by
      have hfpm : pyInt (effectiveFps (1/30 : ℚ) * 60) = 2 := by
        norm_num [pyInt, effectiveFps]
      have hfpm2 : pyInt ((2 : ℚ)) = 2 := by norm_num [pyInt]
      have h0 : pyMod (0 : ℤ) 2 = 0 := by decide
      have h1 : pyMod (1 : ℤ) 2 = 1 := by decide
      have h2 : pyMod (2 : ℤ) 2 = 0 := by decide
      have h3 : pyMod (3 : ℤ) 2 = 1 := by decide
      have h4 : pyMod (4 : ℤ) 2 = 0 := by decide
      have h5 : pyMod (5 : ℤ) 2 = 1 := by decide
      have h6 : pyMod (6 : ℤ) 2 = 0 := by decide
      have h7 : pyMod (7 : ℤ) 2 = 1 := by decide
      have h8 : pyMod (8 : ℤ) 2 = 0 := by decide
      have h9 : pyMod (9 : ℤ) 2 = 1 := by decide
      norm_num [tenFrameVideo, extract_keyframe_per_minute, hfpm, hfpm2, perMinuteLoop,
        effectiveFps, h0, h1, h2, h3, h4, h5, h6, h7, h8, h9])
    (by
      intro x hx
      refine ⟨[⟨(1, 1, 2, 2), 1/2, 0⟩], ?_⟩
      simp only [List.mem_cons, List.mem_singleton] at hx
      rcases hx with rfl | rfl | h
      · rfl
      · rfl
      · simp at h)
    rfl

/-- Claim C3 (counterexample).  The claim computes
`frames_per_interval = round(fps * 60)`; the code uses `int(fps * 60)`,
which truncates.  At `fps = 1/8` (exactly representable as a float,
`fps * 60 = 7.5`) rounding gives 8 but the code uses 7: on an
8-frame stream the selector emits index 7, which is not a multiple of
8, and no index besides 0 that is a multiple of 8. -/
theorem fixed_interval_truncation_counterexample :
    pyInt ((1/8 : ℚ) * 60) = 7 ∧
    roundHalfEven ((1/8 : ℚ) * 60) = 8 ∧
    (extract_keyframe_per_minute ((1/8 : ℚ))
        ([0, 1, 2, 3, 4, 5, 6, 7] : List ℕ)).outcome =
      .ok [(0, 0, (0 : ℚ)), (7, 7, (56 : ℚ))] ∧
    ¬ 7 % 8 = 0 := by
  have hfpm : pyInt (effectiveFps (1/8 : ℚ) * 60) = 7 := by
    norm_num [pyInt, effectiveFps]
  have hfpm2 : pyInt ((15 : ℚ) / 2) = 7 := by norm_num [pyInt]
  have h0 : pyMod (0 : ℤ) 7 = 0 := by decide
  have h1 : pyMod (1 : ℤ) 7 = 1 := by decide
  have h2 : pyMod (2 : ℤ) 7 = 2 := by decide
  have h3 : pyMod (3 : ℤ) 7 = 3 := by decide
  have h4 : pyMod (4 : ℤ) 7 = 4 := by decide
  have h5 : pyMod (5 : ℤ) 7 = 5 := by decide
  have h6 : pyMod (6 : ℤ) 7 = 6 := by decide
  have h7 : pyMod (7 : ℤ) 7 = 0 := by decide
  refine ⟨by norm_num [pyInt], by norm_num [roundHalfEven], ?_, by norm_num⟩
  norm_num [extract_keyframe_per_minute, hfpm, hfpm2, perMinuteLoop, effectiveFps,
    h0, h1, h2, h3, h4, h5, h6, h7]

/-- Claim C3 (amended).  For every frame rate `fps > 0` such that
`frames_per_interval = int(fps * 60)` (truncation, not rounding; the
60-second interval is hardcoded) is nonzero, the selector emits exactly
the frames whose index has remainder zero modulo `frames_per_interval`,
in order, each with timestamp `index / fps`, and no others (for
`fps = 30`, `frames_per_interval = 1800`). -/
theorem fixed_interval_emits_exactly_multiples {α : Type} (rawFps : ℚ)
    (frames : List α) (hfps : 0 < rawFps) (hfpm : pyInt (rawFps * 60) ≠ 0) :
    (extract_keyframe_per_minute rawFps frames).outcome =
      .ok (fixedIntervalSpec rawFps (pyInt (rawFps * 60)) frames) := by
  have he : effectiveFps rawFps = rawFps := if_neg (ne_of_gt hfps)
  rw [extract_per_minute_eq_spec rawFps frames (by rw [he]; exact hfpm), he]

/-- Witness for the amended C3 theorem: `fps = 30` yields
`frames_per_interval = 1800` and the spec-side selection on a
2000-frame stream. -/
theorem fixed_interval_emits_exactly_multiples_witness :
    (extract_keyframe_per_minute (30 : ℚ) (List.range 2000)).outcome =
      .ok (fixedIntervalSpec 30 (pyInt ((30 : ℚ) * 60)) (List.range 2000)) :=
  fixed_interval_emits_exactly_multiples 30 (List.range 2000) (by norm_num)
    (by norm_num [pyInt])

/-- Claim C4.  The histogram-change selector (with the grayscale
histogram and `HISTCMP_CORREL` injected as `calcHist`/`cmp`, where the
correlation of a histogram with itself is 1): (i) always emits the
first frame of a non-empty stream, at index 0 and timestamp 0; (ii) a
frame that is not emitted leaves the run unchanged — the reference
histogram is updated only on emission; (iii) two consecutive identical
frames are never both emitted when `threshold < 1`; (iv) a stream of
all-identical frames yields exactly one emitted frame. -/
theorem histogram_selector_properties {α H : Type} (calcHist : α → H)
    (cmp : H → H → ℚ) (rawFps T : ℚ) :
    (∀ (f : α) (rest : List α), ∃ tail,
        extract_keyframes calcHist cmp rawFps T (f :: rest) = (f, 0, 0) :: tail) ∧
    (∀ (p : H) (i : ℕ) (f : α) (rest : List α), ¬ cmp p (calcHist f) < T →
        keyframesLoop (effectiveFps rawFps) calcHist cmp T (some p) i (f :: rest) =
          keyframesLoop (effectiveFps rawFps) calcHist cmp T (some p) (i + 1) rest) ∧
    ((∀ h : H, cmp h h = 1) → T < 1 → ∀ (l1 l2 : List α) (f : α),
        ¬ (l1.length ∈ ((extract_keyframes calcHist cmp rawFps T
              (l1 ++ f :: f :: l2)).map fun t => t.2.1) ∧
           l1.length + 1 ∈ ((extract_keyframes calcHist cmp rawFps T
              (l1 ++ f :: f :: l2)).map fun t => t.2.1))) ∧
    ((∀ h : H, cmp h h = 1) → T < 1 → ∀ (f : α) (n : ℕ),
        extract_keyframes calcHist cmp rawFps T (List.replicate (n + 1) f) =
          [(f, 0, 0)]) := by
  refine ⟨?_, ?_, ?_, ?_⟩
  · intro f rest
    refine ⟨keyframesLoop (effectiveFps rawFps) calcHist cmp T (some (calcHist f)) 1 rest,
      ?_⟩
    unfold extract_keyframes
    rw [keyframesLoop_cons_none]
    norm_num
  · intro p i f rest hc
    exact keyframesLoop_cons_skip (effectiveFps rawFps) calcHist cmp T p i f rest hc
  · intro hcorr hT l1 l2 f h
    have := keyframesLoop_second_identical_not_mem (effectiveFps rawFps) calcHist cmp T
      hcorr (le_of_lt hT) f l2 l1 none 0
    unfold extract_keyframes at h
    simp only [Nat.zero_add] at this
    exact this h.2
  · intro hcorr hT f n
    unfold extract_keyframes
    rw [List.replicate_succ, keyframesLoop_cons_none,
      keyframesLoop_replicate (effectiveFps rawFps) calcHist cmp T f (hcorr (calcHist f))
        (le_of_lt hT) n 1]
    norm_num

/-- Witness for C4 at a concrete stub histogram/correlation: three
identical frames yield exactly one emitted keyframe. -/
theorem histogram_selector_properties_witness :
    extract_keyframes (fun n : ℕ => n) (fun a b => if a = b then (1 : ℚ) else 0) 30
      (6/10) (List.replicate 3 5) = [(5, 0, 0)] :=
  (histogram_selector_properties (fun n : ℕ => n)
      (fun a b => if a = b then (1 : ℚ) else 0) 30 (6/10)).2.2.2
    (fun h => by simp) (by norm_num) 5 2

/-- Claim C5.  For every frame rate `fps > 0`, both keyframe selectors
attach to every produced triple the timestamp `frame_index / fps`. -/
theorem produced_timestamps_eq_index_div_fps {α H : Type} (rawFps : ℚ)
    (hfps : 0 < rawFps) :
    (∀ (frames : List α) (l : List (α × ℕ × ℚ)),
        (extract_keyframe_per_minute rawFps frames).outcome = .ok l →
        ∀ x ∈ l, x.2.2 = (x.2.1 : ℚ) / rawFps) ∧
    (∀ (calcHist : α → H) (cmp : H → H → ℚ) (T : ℚ) (frames : List α),
        ∀ x ∈ extract_keyframes calcHist cmp rawFps T frames,
          x.2.2 = (x.2.1 : ℚ) / rawFps) := by
  have he : effectiveFps rawFps = rawFps := if_neg (ne_of_gt hfps)
  constructor
  · intro frames l hl x hx
    have hp := extract_outcome_ok rawFps frames hl
    have := perMinuteLoop_timestamps (effectiveFps rawFps)
      (pyInt (effectiveFps rawFps * 60)) frames 0 l hp x hx
    rwa [he] at this
  · intro ch cmp T frames x hx
    have := keyframesLoop_timestamps (effectiveFps rawFps) ch cmp T frames none 0 x hx
    rwa [he] at this

/-- Witness for C5: the single keyframe of a one-frame stream at
`fps = 30` carries timestamp `0 / 30`. -/
theorem produced_timestamps_witness :
    ((5, 0, (0 : ℚ)) : ℕ × ℕ × ℚ).2.2 =
      ((((5, 0, (0 : ℚ)) : ℕ × ℕ × ℚ).2.1 : ℕ) : ℚ) / 30 :=
  (produced_timestamps_eq_index_div_fps (α := ℕ) (H := ℕ) 30 (by norm_num)).2
    (fun n => n) (fun _ _ => 1) (6/10) [5] (5, 0, 0)
    (by norm_num [extract_keyframes, keyframesLoop, effectiveFps])

/-- A one-frame video whose frame rate `1/120` makes
`int(fps * 60) = 0`, so the selector's `%` raises on the first decoded
frame. -/
def leakVideo : Video := ⟨true, 1/120, [⟨100, 100, 0⟩]⟩

/-- Claim C6 (counterexample).  Nothing in the repository clips or
validates detector boxes: a detector whose post-processed box is
`(-5, -5, 1000000, 1000000)` on a 100×100 frame has that box reported
unchanged (only rounded to two decimals), far outside
`[0, width] × [0, height]` of the originating frame. -/
theorem box_outside_frame_counterexample :
    fetch_timestamp oobDet "girl with pink shirt" demoVideo 0 1 =
      (.ok ⟨[⟨0, 1/2, (-5, -5, 1000000, 1000000), 0, 0⟩], 1, 1, none⟩, false) ∧
    ¬ BoxIn (-5, -5, 1000000, 1000000) 100 100 := by
  have hfpm : pyInt (effectiveFps (30 : ℚ) * 60) = 1800 := by
    norm_num [pyInt, effectiveFps]
  have hfpm2 : pyInt ((1800 : ℚ)) = 1800 := by norm_num [pyInt]
  have hpm0 : pyMod (0 : ℤ) 1800 = 0 := by decide
  have hfr1 : Int.fract ((-500 : ℚ)) = 0 := by norm_num [Int.fract]
  have hfr2 : Int.fract ((100000000 : ℚ)) = 0 := by norm_num [Int.fract]
  constructor
  · norm_num [fetch_timestamp, open_video, demoVideo, extract_keyframe_per_minute, hfpm,
      hfpm2, effectiveFps, perMinuteLoop, hpm0, detectionLoop, oobDet, roundBox,
      pyRound2, roundHalfEven, hfr1, hfr2]
  · norm_num [BoxIn]

/-- Claim C6 (amended).  The orchestrator passes detector boxes through
unclipped (rounding each coordinate to two decimals); every reported
bounding box lies within `[0, w] × [0, h]` exactly under the assumption
that the external detector/post-processing only returns boxes within
those bounds for each processed frame. -/
theorem boxes_bounded_iff_detector_bounded (det : Detector) (q : String) (v : Video)
    (t0 t1 : ℚ) (w h : ℕ)
    (hdet : ∀ f ∈ v.frames, ∀ raws, det q f = .ok raws → ∀ r ∈ raws, BoxIn r.box w h)
    (tr : FetchTrace) (lk : Bool) (hrun : fetch_timestamp det q v t0 t1 = (.ok tr, lk)) :
    ∀ d ∈ tr.dets, BoxIn d.box w h := by
  obtain ⟨hopen, cands, hex, hdl⟩ := fetch_timestamp_ok_inv det q v t0 t1 tr lk hrun
  have hp := extract_outcome_ok v.rawFps v.frames hex
  have hsub := perMinuteLoop_sublist (effectiveFps v.rawFps)
    (pyInt (effectiveFps v.rawFps * 60)) v.frames 0 cands hp
  refine detectionLoop_boxes det q w h cands tr.dets tr.count hdl ?_
  intro x hx raws hok r hr
  exact hdet x.1 (hsub.subset (List.mem_map_of_mem _ hx)) raws hok r hr

/-- Witness for the amended C6 theorem: the stub detector's in-bounds
box survives in bounds through a concrete run. -/
theorem boxes_bounded_witness :
    BoxIn ((⟨0, 1/2, (1, 2, 3, 4), 0, 0⟩ : Detection)).box 100 100 :=
  boxes_bounded_iff_detector_bounded stubDet "girl with pink shirt" demoVideo 0 5 100
    100
    (by
      intro f hf raws hok r hr
      simp only [stubDet, Except.ok.injEq] at hok
      subst hok
      simp only [List.mem_singleton] at hr
      subst hr
      norm_num [BoxIn])
    ⟨[⟨0, 1/2, (1, 2, 3, 4), 0, 0⟩], 1, 5, none⟩ false
    (by
      have hfpm : pyInt (effectiveFps (30 : ℚ) * 60) = 1800 := by
        norm_num [pyInt, effectiveFps]
      have hfpm2 : pyInt ((1800 : ℚ)) = 1800 := by norm_num [pyInt]
      have hpm0 : pyMod (0 : ℤ) 1800 = 0 := by decide
      norm_num [fetch_timestamp, open_video, demoVideo, extract_keyframe_per_minute,
        hfpm, hfpm2, effectiveFps, perMinuteLoop, hpm0, detectionLoop, stubDet,
        roundBox, pyRound2, roundHalfEven])
    ⟨0, 1/2, (1, 2, 3, 4), 0, 0⟩ (by simp)

/-- Claim C7 (counterexample).  With `fps = 1/120` the first decoded
frame raises `ZeroDivisionError` inside the read loop, before
`cap.release()` is reached (there is no `try/finally`), so the handle
acquired by the successful open is leaked on that exit path. -/
theorem handle_leaked_counterexample :
    fetch_timestamp stubDet "girl with pink shirt" leakVideo 0 1 =
      (.error .zeroDivision, true) ∧
    extract_keyframe_per_minute (1/120 : ℚ) ([⟨100, 100, 0⟩] : List Frame) =
      ⟨.error .zeroDivision, false⟩ := by
  have hfpm : pyInt (effectiveFps (1/120 : ℚ) * 60) = 0 := by
    norm_num [pyInt, effectiveFps]
  have hfpm2 : pyInt ((1/2 : ℚ)) = 0 := by norm_num [pyInt]
  constructor
  · norm_num [fetch_timestamp, open_video, leakVideo, extract_keyframe_per_minute,
      hfpm, hfpm2, effectiveFps, perMinuteLoop]
  · norm_num [extract_keyframe_per_minute, hfpm, hfpm2, effectiveFps, perMinuteLoop]

/-- Claim C7 (amended).  The capture handle is released exactly when the
frame-reading loop completes without raising: a `ZeroDivisionError`
escaping mid-extraction propagates before `cap.release()` and leaks the
handle, while detector failures happen after the (already released)
extraction and leak nothing; an open failure acquires no handle. -/
theorem handle_release_characterisation {α : Type} :
    (∀ (rawFps : ℚ) (frames : List α),
        (extract_keyframe_per_minute rawFps frames).released = true ↔
          ∃ l, (extract_keyframe_per_minute rawFps frames).outcome = .ok l) ∧
    (∀ (det : Detector) (q : String) (v : Video) (t0 t1 : ℚ),
        (fetch_timestamp det q v t0 t1).2 = true ↔
          v.openable = true ∧
            (extract_keyframe_per_minute v.rawFps v.frames).released = false) :=
  ⟨fun rawFps frames => extract_released_iff rawFps frames,
    fun det q v t0 t1 => fetch_timestamp_leak_iff det q v t0 t1⟩

/-- Witness for the amended C7 theorem: on a one-frame stream at 30 fps
the extraction completes and the handle is released. -/
theorem handle_release_witness :
    (extract_keyframe_per_minute (30 : ℚ) ([5] : List ℕ)).released = true :=
  ((handle_release_characterisation (α := ℕ)).1 30 [5]).mpr
    ⟨[(5, 0, 0)], by
      have hfpm2 : pyInt ((1800 : ℚ)) = 1800 := by norm_num [pyInt]
      have hpm0 : pyMod (0 : ℤ) 1800 = 0 := by decide
      norm_num [extract_keyframe_per_minute, effectiveFps, hfpm2, perMinuteLoop, hpm0]⟩

/-- Claim C8.  Both keyframe selectors return a subsequence of the
input frame stream (original order preserved, indices strictly
increasing), and within one search the materialised detections carry
non-decreasing frame indices, because candidates are processed in
stream order. -/
theorem selector_subsequence_and_detection_order {α H : Type} :
    (∀ (rawFps : ℚ) (frames : List α) (l : List (α × ℕ × ℚ)),
        (extract_keyframe_per_minute rawFps frames).outcome = .ok l →
        List.Sublist (l.map fun t => t.1) frames ∧
          (l.map fun t => t.2.1).Pairwise (· < ·)) ∧
    (∀ (calcHist : α → H) (cmp : H → H → ℚ) (rawFps T : ℚ) (frames : List α),
        List.Sublist ((extract_keyframes calcHist cmp rawFps T frames).map fun t => t.1)
            frames ∧
          ((extract_keyframes calcHist cmp rawFps T frames).map fun t => t.2.1).Pairwise
            (· < ·)) ∧
    (∀ (det : Detector) (q : String) (v : Video) (t0 t1 : ℚ) (tr : FetchTrace)
        (lk : Bool), fetch_timestamp det q v t0 t1 = (.ok tr, lk) →
        (tr.dets.map fun d => d.frame_id).Pairwise (· ≤ ·)) := by
  refine ⟨?_, ?_, ?_⟩
  · intro rawFps frames l hl
    have hp := extract_outcome_ok rawFps frames hl
    exact ⟨perMinuteLoop_sublist _ _ frames 0 l hp,
      perMinuteLoop_pairwise _ _ frames 0 l hp⟩
  · intro ch cmp rawFps T frames
    exact ⟨keyframesLoop_sublist _ ch cmp T frames none 0,
      keyframesLoop_pairwise _ ch cmp T frames none 0⟩
  · intro det q v t0 t1 tr lk hrun
    obtain ⟨hopen, cands, hex, hdl⟩ := fetch_timestamp_ok_inv det q v t0 t1 tr lk hrun
    have hp := extract_outcome_ok v.rawFps v.frames hex
    exact detectionLoop_ids_pairwise det q cands tr.dets tr.count hdl
      (perMinuteLoop_pairwise _ _ v.frames 0 cands hp)

/-- Witness for C8 on a concrete one-candidate run. -/
theorem selector_subsequence_witness :
    (([⟨0, 1/2, (1, 2, 3, 4), 0, 0⟩] : List Detection).map fun d => d.frame_id).Pairwise
      (· ≤ ·) :=
  (selector_subsequence_and_detection_order (α := ℕ) (H := ℕ)).2.2 stubDet
    "girl with pink shirt" demoVideo 0 5 ⟨[⟨0, 1/2, (1, 2, 3, 4), 0, 0⟩], 1, 5, none⟩
    false
    (by
      have hfpm : pyInt (effectiveFps (30 : ℚ) * 60) = 1800 := by
        norm_num [pyInt, effectiveFps]
      have hfpm2 : pyInt ((1800 : ℚ)) = 1800 := by norm_num [pyInt]
      have hpm0 : pyMod (0 : ℤ) 1800 = 0 := by decide
      norm_num [fetch_timestamp, open_video, demoVideo, extract_keyframe_per_minute,
        hfpm, hfpm2, effectiveFps, perMinuteLoop, hpm0, detectionLoop, stubDet,
        roundBox, pyRound2, roundHalfEven])

/-- Claim C9.  The search pipeline is a deterministic function of the
video, the query, and the (deterministic) detector: the wall-clock
readings influence only the reported elapsed time, so two runs over the
same inputs produce identical ordered detection lists, candidate
counts, and return values. -/
theorem search_results_deterministic (det : Detector) (q : String) (v : Video)
    (t0 t1 t0' t1' : ℚ) :
    ((fetch_timestamp det q v t0 t1).1.map fun tr => (tr.dets, tr.count, tr.retval)) =
      ((fetch_timestamp det q v t0' t1').1.map fun tr =>
        (tr.dets, tr.count, tr.retval)) := by
  by_cases hopen : v.openable = true
  · cases hex : (extract_keyframe_per_minute v.rawFps v.frames).outcome with
    | error e =>
      have ho : open_video v = .ok (v.rawFps, v.frames) := by simp [open_video, hopen]
      have h1 : fetch_timestamp det q v t0 t1 =
          (.error e, !(extract_keyframe_per_minute v.rawFps v.frames).released) := by
        simp only [fetch_timestamp, ho, hex]
      have h2 : fetch_timestamp det q v t0' t1' =
          (.error e, !(extract_keyframe_per_minute v.rawFps v.frames).released) := by
        simp only [fetch_timestamp, ho, hex]
      rw [h1, h2]
    | ok cands =>
      rw [fetch_timestamp_ok_eq det q v t0 t1 hopen hex,
        fetch_timestamp_ok_eq det q v t0' t1' hopen hex]
      cases hdl : detectionLoop det q cands with
      | error e => rfl
      | ok p => obtain ⟨ds, c⟩ := p; rfl
  · have ho : open_video v = .error .ioError := by simp [open_video, hopen]
    have h1 : fetch_timestamp det q v t0 t1 = (.error .ioError, false) := by
      simp only [fetch_timestamp, ho]
    have h2 : fetch_timestamp det q v t0' t1' = (.error .ioError, false) := by
      simp only [fetch_timestamp, ho]
    rw [h1, h2]

/-- Claim C10.  For every frame rate with `0 < fps * 60 < 1` the
selector computes `frames_per_interval = int(fps * 60) = 0` and raises
`ZeroDivisionError` on the first decoded frame (leaking the handle)
instead of returning a candidate list; for `fps * 60 ≥ 1` it is total
on every frame stream. -/
theorem tiny_fps_division_by_zero {α : Type} :
    (∀ (rawFps : ℚ) (f : α) (rest : List α), 0 < rawFps * 60 → rawFps * 60 < 1 →
        pyInt (effectiveFps rawFps * 60) = 0 ∧
        extract_keyframe_per_minute rawFps (f :: rest) =
          ⟨.error .zeroDivision, false⟩) ∧
    (∀ (rawFps : ℚ) (frames : List α), 1 ≤ rawFps * 60 →
        ∃ l, (extract_keyframe_per_minute rawFps frames).outcome = .ok l) := by
  constructor
  · intro rawFps f rest h0 h1
    have hfz : rawFps ≠ 0 := by
      intro hz
      rw [hz] at h0
      norm_num at h0
    have he : effectiveFps rawFps = rawFps := if_neg hfz
    have hz : pyInt (effectiveFps rawFps * 60) = 0 := by
      rw [he]
      unfold pyInt
      rw [if_pos (le_of_lt h0), Int.floor_eq_zero_iff, Set.mem_Ico]
      exact ⟨le_of_lt h0, h1⟩
    refine ⟨hz, ?_⟩
    simp only [extract_keyframe_per_minute, hz]
    simp [perMinuteLoop]
  · intro rawFps frames hge
    have hfz : rawFps ≠ 0 := by
      intro hz
      rw [hz] at hge
      norm_num at hge
    have he : effectiveFps rawFps = rawFps := if_neg hfz
    have hpos : (0 : ℚ) ≤ rawFps * 60 := le_trans (by norm_num) hge
    have hnz : pyInt (effectiveFps rawFps * 60) ≠ 0 := by
      rw [he]
      unfold pyInt
      rw [if_pos hpos]
      have h1 : (1 : ℤ) ≤ ⌊rawFps * 60⌋ := by
        rw [Int.le_floor]
        exact_mod_cast hge
      omega
    obtain ⟨l, hl⟩ := perMinuteLoop_total (effectiveFps rawFps) hnz frames 0
    exact ⟨l, by simp only [extract_keyframe_per_minute, hl]⟩

/-- Witness for C10 at `fps = 1/120` on a one-frame stream. -/
theorem tiny_fps_witness :
    pyInt (effectiveFps (1/120 : ℚ) * 60) = 0 ∧
    extract_keyframe_per_minute (1/120 : ℚ) ([0] : List ℕ) =
      ⟨.error .zeroDivision, false⟩ :=
  (tiny_fps_division_by_zero (α := ℕ)).1 (1/120) 0 [] (by norm_num) (by norm_num)

end EvidenX
